import Mathlib

/-!
Rotating cube (`cube.c`): matrix math, geometry data and rotation state

A shallow embedding of the pure parts of `cube.c`:

* the static geometry tables `cube_vertices` and `cube_indices`;
* the 4x4 matrix builders `perspectiveMatrix`, `rotationMatrix`,
  `translationMatrix`, `identityMatrix` and the product `multiplyMatrices`;
* the per-frame update of the global `rotation_angle` in `renderCube`.

A `float[16]` buffer is a function `Fin 16 → α` over a field `α` (the C `float`
idealised as exact arithmetic).  The C library functions `cosf`, `sinf`, `tanf`
and `sqrtf` are not part of the program and are taken as parameters; the
theorems instantiate them with the real functions.
-/

namespace Cube

/-! ## Geometry data -/

/-- The table `cube_vertices`: 8 vertices, 3 coordinates each. -/
def cube_vertices : List ℚ :=
  [ -- Front face
    -0.5, -0.5,  0.5,
     0.5, -0.5,  0.5,
     0.5,  0.5,  0.5,
    -0.5,  0.5,  0.5,
    -- Back face
    -0.5, -0.5, -0.5,
    -0.5,  0.5, -0.5,
     0.5,  0.5, -0.5,
     0.5, -0.5, -0.5 ]

/-- The table `cube_indices`: 6 faces with 2 triangles each. -/
def cube_indices : List Nat :=
  [ -- Front face
    0, 1, 2, 2, 3, 0,
    -- Back face
    4, 5, 6, 6, 7, 4,
    -- Top face
    3, 2, 6, 6, 5, 3,
    -- Bottom face
    0, 4, 7, 7, 1, 0,
    -- Right face
    1, 2, 6, 6, 7, 1,
    -- Left face
    0, 3, 5, 5, 4, 0 ]

/-- The element count handed to `glDrawElements(GL_TRIANGLES, 36, ...)`. -/
def drawCount : Nat := 36

/-- Number of vertices described by `cube_vertices`
(`glVertexAttribPointer(0, 3, ...)`: three floats per vertex). -/
def vertexCount : Nat := cube_vertices.length / 3

/-! ## Matrix math -/

/-- Position `i*4 + j` inside a `float[16]` buffer, for `i, j < 4`. -/
def at4 (i j : Fin 4) : Fin 16 := ⟨i.val * 4 + j.val, by omega⟩

/-- The loop `for (int i = 0; i < 16; i++) matrix[i] = 0.0f;`. -/
def zeroFill {α : Type} [Zero α] (matrix : Fin 16 → α) : Fin 16 → α :=
  (List.finRange 16).foldl (fun m i => Function.update m i 0) matrix

/-- The function `perspectiveMatrix(fov, aspect, near, far, matrix)`. -/
def perspectiveMatrix {α : Type} [Field α] (tanf : α → α)
    (fov aspect near far : α) (matrix : Fin 16 → α) : Fin 16 → α :=
  let f := 1 / tanf (fov * 0.5 * 3.14159 / 180)
  let matrix := zeroFill matrix
  let matrix := Function.update matrix 0 (f / aspect)
  let matrix := Function.update matrix 5 f
  let matrix := Function.update matrix 10 ((far + near) / (near - far))
  let matrix := Function.update matrix 11 (-1)
  let matrix := Function.update matrix 14 ((2 * far * near) / (near - far))
  matrix

/-- The function `rotationMatrix(angle, x, y, z, matrix)`. -/
def rotationMatrix {α : Type} [Field α] (cosf sinf sqrtf : α → α)
    (angle x y z : α) (matrix : Fin 16 → α) : Fin 16 → α :=
  let c := cosf (angle * 3.14159 / 180)
  let s := sinf (angle * 3.14159 / 180)
  let t := 1 - c
  -- Normalize rotation axis
  let length := sqrtf (x*x + y*y + z*z)
  let x := x / length
  let y := y / length
  let z := z / length
  let matrix := Function.update matrix 0 (t*x*x + c)
  let matrix := Function.update matrix 1 (t*x*y - s*z)
  let matrix := Function.update matrix 2 (t*x*z + s*y)
  let matrix := Function.update matrix 3 0
  let matrix := Function.update matrix 4 (t*x*y + s*z)
  let matrix := Function.update matrix 5 (t*y*y + c)
  let matrix := Function.update matrix 6 (t*y*z - s*x)
  let matrix := Function.update matrix 7 0
  let matrix := Function.update matrix 8 (t*x*z - s*y)
  let matrix := Function.update matrix 9 (t*y*z + s*x)
  let matrix := Function.update matrix 10 (t*z*z + c)
  let matrix := Function.update matrix 11 0
  let matrix := Function.update matrix 12 0
  let matrix := Function.update matrix 13 0
  let matrix := Function.update matrix 14 0
  let matrix := Function.update matrix 15 1
  matrix

/-- The function `translationMatrix(x, y, z, matrix)`. -/
def translationMatrix {α : Type} [Field α] (x y z : α) (matrix : Fin 16 → α) :
    Fin 16 → α :=
  let matrix := zeroFill matrix
  let matrix := Function.update matrix 0 1
  let matrix := Function.update matrix 5 1
  let matrix := Function.update matrix 10 1
  let matrix := Function.update matrix 15 1
  let matrix := Function.update matrix 12 x
  let matrix := Function.update matrix 13 y
  let matrix := Function.update matrix 14 z
  matrix

/-- The function `identityMatrix(matrix)`. -/
def identityMatrix {α : Type} [Field α] (matrix : Fin 16 → α) : Fin 16 → α :=
  let matrix := zeroFill matrix
  let matrix := Function.update matrix 0 1
  let matrix := Function.update matrix 5 1
  let matrix := Function.update matrix 10 1
  let matrix := Function.update matrix 15 1
  matrix

/-- The function `multiplyMatrices(a, b, result)`: three nested loops, the
innermost accumulating into `result[i*4 + j]`.  The buffer `result` is distinct
from `a` and `b`, as at both call sites in `renderCube`. -/
def multiplyMatrices {α : Type} [Field α] (a b result : Fin 16 → α) : Fin 16 → α :=
  (List.finRange 4).foldl (fun result i =>
    (List.finRange 4).foldl (fun result j =>
      let result := Function.update result (at4 i j) 0
      (List.finRange 4).foldl (fun result k =>
        Function.update result (at4 i j)
          (result (at4 i j) + a (at4 i k) * b (at4 k j))) result) result) result

/-! ## Rotation state and the per-frame computation -/

/-- The constant `SCREEN_WIDTH`. -/
def SCREEN_WIDTH : Nat := 800

/-- The constant `SCREEN_HEIGHT`. -/
def SCREEN_HEIGHT : Nat := 600

/-- The update of the global `rotation_angle` at the start of `renderCube`:
`rotation_angle += 1.0f; if (rotation_angle > 360.0f) rotation_angle -= 360.0f;`. -/
def stepAngle {α : Type} [LinearOrderedField α] (rotation_angle : α) : α :=
  let rotation_angle := rotation_angle + 1
  if rotation_angle > 360 then rotation_angle - 360 else rotation_angle

/-- The local buffers `model`, `view`, `projection`, `temp`, `transform` of
`renderCube`. -/
structure Frame (α : Type) where
  model : Fin 16 → α
  view : Fin 16 → α
  projection : Fin 16 → α
  temp : Fin 16 → α
  transform : Fin 16 → α

/-- The computational part of `renderCube`: the new value of the global
`rotation_angle` and the five local matrices.  The argument `stack` is the
(uninitialised) content of the local buffers on entry. -/
def renderCube {α : Type} [LinearOrderedField α] (cosf sinf sqrtf tanf : α → α)
    (rotation_angle : α) (stack : Frame α) : α × Frame α :=
  let rotation_angle := stepAngle rotation_angle
  -- Model matrix (rotation)
  let model := rotationMatrix cosf sinf sqrtf rotation_angle 0.5 1 0 stack.model
  -- View matrix (move camera back)
  let view := translationMatrix 0 0 (-3) stack.view
  -- Projection matrix
  let projection :=
    perspectiveMatrix tanf 45 ((SCREEN_WIDTH : α) / (SCREEN_HEIGHT : α)) 0.1 100
      stack.projection
  -- Combine matrices: transform = projection * view * model
  let temp := multiplyMatrices view model stack.temp
  let transform := multiplyMatrices projection temp stack.transform
  (rotation_angle, ⟨model, view, projection, temp, transform⟩)

/-- The initial value `float rotation_angle = 0.0f;`. -/
def rotation_angle₀ {α : Type} [LinearOrderedField α] : α := 0

/-- The value of the global `rotation_angle` after `n` calls of `renderCube`. -/
def angleAfter {α : Type} [LinearOrderedField α] : Nat → α
  | 0 => rotation_angle₀
  | n + 1 => stepAngle (angleAfter n)

/-! ## Vocabulary of the specification -/

/-- A `float[16]` buffer read as a 4x4 matrix in row-major layout: the element
of row `r`, column `c` is at index `r*4 + c`. -/
def rowMajor {α : Type} (m : Fin 16 → α) : Matrix (Fin 4) (Fin 4) α :=
  Matrix.of fun r c => m (at4 r c)

/-- A `float[16]` buffer read as a 4x4 matrix in column-major layout (the layout
of `glUniformMatrix4fv` with `transpose = GL_FALSE`): the element of row `r`,
column `c` is at index `c*4 + r`. -/
def colMajor {α : Type} (m : Fin 16 → α) : Matrix (Fin 4) (Fin 4) α :=
  Matrix.of fun r c => m (at4 c r)

/-- Coordinate `k` (0 = x, 1 = y, 2 = z) of vertex `v`: `cube_vertices[3*v + k]`. -/
def vertexCoord (v k : Nat) : ℚ := cube_vertices.getD (3 * v + k) 0

/-- The `n`-th index triple: `cube_indices[3*n]`, `[3*n+1]`, `[3*n+2]`. -/
def triangle (n : Nat) : List Nat :=
  [cube_indices.getD (3 * n) 0, cube_indices.getD (3 * n + 1) 0,
   cube_indices.getD (3 * n + 2) 0]

/-- The 12 consecutive index triples of `cube_indices`. -/
def triangles : List (List Nat) := (List.range (cube_indices.length / 3)).map triangle

/-- The six face planes of the cube, as (coordinate, value): `x = ±0.5`,
`y = ±0.5`, `z = ±0.5`. -/
def facePlanes : List (Nat × ℚ) :=
  [(0, 0.5), (0, -0.5), (1, 0.5), (1, -0.5), (2, 0.5), (2, -0.5)]

/-- Vertex `v` lies in the plane `p`. -/
def onPlane (p : Nat × ℚ) (v : Nat) : Bool := decide (vertexCoord v p.1 = p.2)

/-- All vertices of the triple `t` lie in the plane `p`. -/
def inPlane (p : Nat × ℚ) (t : List Nat) : Bool := t.all (onPlane p)

/-- The triangles carried by the plane `p`. -/
def trianglesOn (p : Nat × ℚ) : List (List Nat) := triangles.filter (inPlane p)

/-- The corners of the face in plane `p`: the vertices of `cube_vertices` on it. -/
def corners (p : Nat × ℚ) : List Nat := (List.range vertexCount).filter (onPlane p)

end Cube

namespace Cube

variable {α : Type} [Field α]

theorem zeroFill_eq (m : Fin 16 → α) : zeroFill m = fun _ => 0 := by
  funext i; fin_cases i <;> rfl

theorem multiplyMatrices_apply (a b r : Fin 16 → α) (i j : Fin 4) :
    multiplyMatrices a b r (at4 i j) =
      0 + a (at4 i 0) * b (at4 0 j) + a (at4 i 1) * b (at4 1 j)
        + a (at4 i 2) * b (at4 2 j) + a (at4 i 3) * b (at4 3 j) := by
  fin_cases i <;> fin_cases j <;> rfl

theorem at4_div_mod (n : Fin 16) :
    at4 ⟨n.val / 4, by omega⟩ ⟨n.val % 4, by omega⟩ = n := by
  apply Fin.ext
  simp only [at4]
  omega

theorem buffer_ext {β : Type} {m₁ m₂ : Fin 16 → β} (h : ∀ i j, m₁ (at4 i j) = m₂ (at4 i j)) :
    m₁ = m₂ := by
  funext n
  rw [← at4_div_mod n]
  exact h _ _

theorem identityMatrix_apply (m : Fin 16 → α) (i j : Fin 4) :
    identityMatrix m (at4 i j) = if i = j then 1 else 0 := by
  fin_cases i <;> fin_cases j <;> rfl

theorem perspectiveMatrix_eq (tanf : α → α) (fov aspect near far : α) (m : Fin 16 → α) :
    perspectiveMatrix tanf fov aspect near far m =
      ![1 / tanf (fov * 0.5 * 3.14159 / 180) / aspect, 0, 0, 0,
        0, 1 / tanf (fov * 0.5 * 3.14159 / 180), 0, 0,
        0, 0, (far + near) / (near - far), -1,
        0, 0, (2 * far * near) / (near - far), 0] := by
  funext i; fin_cases i <;> rfl

theorem rotationMatrix_rowMajor (cosf sinf sqrtf : α → α) (angle x y z : α)
    (m : Fin 16 → α) :
    rowMajor (rotationMatrix cosf sinf sqrtf angle x y z m) =
      (fun (c s l : α) =>
        !![(1 - c) * (x / l) * (x / l) + c, (1 - c) * (x / l) * (y / l) - s * (z / l),
            (1 - c) * (x / l) * (z / l) + s * (y / l), 0;
          (1 - c) * (x / l) * (y / l) + s * (z / l), (1 - c) * (y / l) * (y / l) + c,
            (1 - c) * (y / l) * (z / l) - s * (x / l), 0;
          (1 - c) * (x / l) * (z / l) - s * (y / l), (1 - c) * (y / l) * (z / l) + s * (x / l),
            (1 - c) * (z / l) * (z / l) + c, 0;
          0, 0, 0, 1])
        (cosf (angle * 3.14159 / 180)) (sinf (angle * 3.14159 / 180))
        (sqrtf (x * x + y * y + z * z)) := by
  ext i j; fin_cases i <;> fin_cases j <;> rfl

theorem colMajor_eq_transpose {β : Type} (m : Fin 16 → β) :
    colMajor m = (rowMajor m).transpose := rfl

theorem translationMatrix_rowMajor (x y z : α) (m : Fin 16 → α) :
    rowMajor (translationMatrix x y z m) =
      !![1, 0, 0, 0; 0, 1, 0, 0; 0, 0, 1, 0; x, y, z, 1] := by
  ext i j; fin_cases i <;> fin_cases j <;> rfl

theorem perspectiveMatrix_rowMajor (tanf : α → α) (fov aspect near far : α)
    (m : Fin 16 → α) :
    rowMajor (perspectiveMatrix tanf fov aspect near far m) =
      !![1 / tanf (fov * 0.5 * 3.14159 / 180) / aspect, 0, 0, 0;
         0, 1 / tanf (fov * 0.5 * 3.14159 / 180), 0, 0;
         0, 0, (far + near) / (near - far), -1;
         0, 0, (2 * far * near) / (near - far), 0] := by
  ext i j; fin_cases i <;> fin_cases j <;> rfl

theorem multiplyMatrices_rowMajor (a b r : Fin 16 → α) :
    rowMajor (multiplyMatrices a b r) = rowMajor a * rowMajor b := by
  ext i j
  simp only [rowMajor, Matrix.of_apply, Matrix.mul_apply, Fin.sum_univ_four,
    multiplyMatrices_apply]
  ring

theorem multiplyMatrices_colMajor (a b r : Fin 16 → α) :
    colMajor (multiplyMatrices a b r) = colMajor b * colMajor a := by
  ext i j
  simp only [colMajor, Matrix.of_apply, Matrix.mul_apply, Fin.sum_univ_four,
    multiplyMatrices_apply]
  ring

/-! ## Matrix math -/

/-- C4: left and right identity law of `multiplyMatrices` over the reals,
entry for entry (whatever the previous contents of the output buffers). -/
theorem multiplyMatrices_identity (M s r : Fin 16 → ℝ) :
    (∀ n, multiplyMatrices (identityMatrix s) M r n = M n) ∧
    (∀ n, multiplyMatrices M (identityMatrix s) r n = M n) := by
  have hl : multiplyMatrices (identityMatrix s) M r = M := by
    apply buffer_ext
    intro i j
    rw [multiplyMatrices_apply]
    simp only [identityMatrix_apply]
    fin_cases i <;> simp
  have hr : multiplyMatrices M (identityMatrix s) r = M := by
    apply buffer_ext
    intro i j
    rw [multiplyMatrices_apply]
    simp only [identityMatrix_apply]
    fin_cases j <;> simp
  exact ⟨fun n => congrFun hl n, fun n => congrFun hr n⟩

/-- C5: `multiplyMatrices` is associative over the reals, entry for entry
(whatever the previous contents of the output buffers). -/
theorem multiplyMatrices_assoc (a b c r₁ r₂ r₃ r₄ : Fin 16 → ℝ) (n : Fin 16) :
    multiplyMatrices (multiplyMatrices a b r₁) c r₂ n =
      multiplyMatrices a (multiplyMatrices b c r₃) r₄ n := by
  rw [← at4_div_mod n]
  simp only [multiplyMatrices_apply]
  ring

/-- C7: for every `fov`, `aspect > 0` and `far > near > 0`, entry 10 of
`perspectiveMatrix` is `(far+near)/(near-far)` and entry 11 is `-1`. -/
theorem perspectiveMatrix_clip_entries (fov aspect near far : ℝ) (m : Fin 16 → ℝ)
    (_haspect : 0 < aspect) (_hnear : 0 < near) (_hfar : near < far) :
    perspectiveMatrix Real.tan fov aspect near far m 10 = (far + near) / (near - far) ∧
    perspectiveMatrix Real.tan fov aspect near far m 11 = -1 := by
  rw [perspectiveMatrix_eq]
  exact ⟨rfl, rfl⟩

/-- C7 at the call of `renderCube`: `perspective(45, 800/600, 0.1, 100)`. -/
theorem perspectiveMatrix_clip_entries_witness :
    (0 : ℝ) < 800 / 600 ∧ (0 : ℝ) < 0.1 ∧ (0.1 : ℝ) < 100 ∧
    perspectiveMatrix Real.tan 45 (800 / 600) 0.1 100 (fun _ => 0) 10
      = ((100 : ℝ) + 0.1) / (0.1 - 100) ∧
    perspectiveMatrix Real.tan 45 (800 / 600) 0.1 100 (fun _ => 0) 11 = (-1 : ℝ) :=
  ⟨by norm_num, by norm_num, by norm_num,
    perspectiveMatrix_clip_entries 45 (800 / 600) 0.1 100 (fun _ => 0)
      (by norm_num) (by norm_num) (by norm_num)⟩

theorem sqrt_axis_ne_zero (x y z : ℝ) (h : ¬ (x = 0 ∧ y = 0 ∧ z = 0)) :
    Real.sqrt (x * x + y * y + z * z) ≠ 0 := by
  have hpos : 0 < x * x + y * y + z * z := by
    rcases not_and_or.mp h with hx | hyz
    · have := mul_self_pos.mpr hx
      nlinarith [mul_self_nonneg y, mul_self_nonneg z]
    · rcases not_and_or.mp hyz with hy | hz
      · have := mul_self_pos.mpr hy
        nlinarith [mul_self_nonneg x, mul_self_nonneg z]
      · have := mul_self_pos.mpr hz
        nlinarith [mul_self_nonneg x, mul_self_nonneg y]
  exact (Real.sqrt_pos.mpr hpos).ne.symm

theorem unit_axis (x y z : ℝ) (h : ¬ (x = 0 ∧ y = 0 ∧ z = 0)) :
    (fun l : ℝ => (x / l) * (x / l) + (y / l) * (y / l) + (z / l) * (z / l))
      (Real.sqrt (x * x + y * y + z * z)) = 1 := by
  have hl := sqrt_axis_ne_zero x y z h
  have hsq : Real.sqrt (x * x + y * y + z * z) * Real.sqrt (x * x + y * y + z * z)
      = x * x + y * y + z * z :=
    Real.mul_self_sqrt (by nlinarith [mul_self_nonneg x, mul_self_nonneg y, mul_self_nonneg z])
  show x / _ * (x / _) + y / _ * (y / _) + z / _ * (z / _) = 1
  field_simp
  linarith

/-- C6: for every angle, every nonzero axis `(x, y, z)` and every scalar `k`,
the matrix built by `rotationMatrix` maps the homogeneous point
`(k*x, k*y, k*z, 1)` to itself, whether the buffer is applied as a row-major
or as a column-major matrix. -/
theorem rotationMatrix_fixes_axis (theta x y z k : ℝ) (m : Fin 16 → ℝ)
    (haxis : ¬ (x = 0 ∧ y = 0 ∧ z = 0)) :
    Matrix.mulVec (rowMajor (rotationMatrix Real.cos Real.sin Real.sqrt theta x y z m))
        ![k * x, k * y, k * z, 1] = ![k * x, k * y, k * z, 1] ∧
    Matrix.mulVec (colMajor (rotationMatrix Real.cos Real.sin Real.sqrt theta x y z m))
        ![k * x, k * y, k * z, 1] = ![k * x, k * y, k * z, 1] := by
  have hl := sqrt_axis_ne_zero x y z haxis
  have hu := unit_axis x y z haxis
  rw [colMajor_eq_transpose, rotationMatrix_rowMajor]
  generalize Real.cos (theta * 3.14159 / 180) = c
  generalize Real.sin (theta * 3.14159 / 180) = s
  generalize Real.sqrt (x * x + y * y + z * z) = l at hl hu ⊢
  have hx : x = l * (x / l) := by field_simp
  have hy : y = l * (y / l) := by field_simp
  have hz : z = l * (z / l) := by field_simp
  simp only at hu ⊢
  generalize x / l = nx at hx hy hz hu ⊢
  generalize y / l = ny at hx hy hz hu ⊢
  generalize z / l = nz at hx hy hz hu ⊢
  subst hx hy hz
  constructor
  · funext i
    fin_cases i <;>
      simp [Matrix.mulVec, Matrix.dotProduct, Fin.sum_univ_four]
    · linear_combination ((1 - c) * k * l * nx) * hu
    · linear_combination ((1 - c) * k * l * ny) * hu
    · linear_combination ((1 - c) * k * l * nz) * hu
  · funext i
    fin_cases i <;>
      simp [Matrix.mulVec, Matrix.dotProduct, Fin.sum_univ_four]
    · linear_combination ((1 - c) * k * l * nx) * hu
    · linear_combination ((1 - c) * k * l * ny) * hu
    · linear_combination ((1 - c) * k * l * nz) * hu

/-- C6 at the axis `(0.5, 1, 0)` used by `renderCube`, angle 30, `k = 2`. -/
theorem rotationMatrix_fixes_axis_witness :
    ¬ ((0.5 : ℝ) = 0 ∧ (1 : ℝ) = 0 ∧ (0 : ℝ) = 0) ∧
    Matrix.mulVec
        (rowMajor (rotationMatrix Real.cos Real.sin Real.sqrt 30 0.5 1 0 (fun _ => 0)))
        ![2 * 0.5, 2 * 1, 2 * 0, 1] = ![2 * 0.5, 2 * 1, 2 * 0, (1 : ℝ)] ∧
    Matrix.mulVec
        (colMajor (rotationMatrix Real.cos Real.sin Real.sqrt 30 0.5 1 0 (fun _ => 0)))
        ![2 * 0.5, 2 * 1, 2 * 0, 1] = ![2 * 0.5, 2 * 1, 2 * 0, (1 : ℝ)] :=
  ⟨by norm_num, rotationMatrix_fixes_axis 30 0.5 1 0 2 (fun _ => 0) (by norm_num)⟩

/-- The full-turn argument `360 * 3.14159 / 180` of the code falls short of `2π` by
less than `6e-6`; the sine and `1 - cos` there are correspondingly small. -/
theorem full_turn_trig :
    (fun c s : ℝ => 0 ≤ 1 - c ∧ 1 - c ≤ 2e-11 ∧ |s| ≤ 6e-6)
      (Real.cos (360 * 3.14159 / 180)) (Real.sin (360 * 3.14159 / 180)) := by
  have h1 := Real.pi_gt_d6
  have h2 := Real.pi_lt_d6
  have hθ : (360 * 3.14159 / 180 : ℝ) = 2 * Real.pi - (2 * Real.pi - 6.28318) := by
    norm_num
  have hd0 : 0 < 2 * Real.pi - 6.28318 := by norm_num at h1 ⊢; linarith
  have hd1 : 2 * Real.pi - 6.28318 < 6e-6 := by norm_num at h2 ⊢; linarith
  rw [hθ, Real.cos_two_pi_sub, Real.sin_two_pi_sub]
  generalize 2 * Real.pi - 6.28318 = d at hd0 hd1
  have hs0 : 0 < Real.sin d := Real.sin_pos_of_pos_of_lt_pi hd0 (by norm_num at hd1; linarith)
  have hs1 : Real.sin d < d := Real.sin_lt hd0
  have hc0 := Real.cos_le_one d
  have hc1 := Real.one_sub_sq_div_two_le_cos (x := d)
  refine ⟨by linarith, ?_, ?_⟩
  · norm_num at hd1 ⊢
    nlinarith
  · rw [abs_neg, abs_of_pos hs0]
    linarith

theorem abs_unit_axis_le (a b c : ℝ) (h : a * a + b * b + c * c = 1) :
    |a| ≤ 1 ∧ |b| ≤ 1 ∧ |c| ≤ 1 := by
  refine ⟨abs_le.mpr ⟨?_, ?_⟩, abs_le.mpr ⟨?_, ?_⟩, abs_le.mpr ⟨?_, ?_⟩⟩ <;>
    nlinarith [mul_self_nonneg a, mul_self_nonneg b, mul_self_nonneg c]

theorem small_offdiag (t s a b p : ℝ) (ht0 : 0 ≤ t) (ht : t ≤ 2e-11) (hs : |s| ≤ 6e-6)
    (ha : |a| ≤ 1) (hb : |b| ≤ 1) (hp : |p| ≤ 1) :
    |t * a * b + s * p| ≤ 1e-5 ∧ |t * a * b - s * p| ≤ 1e-5 := by
  have h1 : |t * a * b| ≤ 2e-11 := by
    rw [abs_mul, abs_mul, abs_of_nonneg ht0]
    calc t * |a| * |b| ≤ t * 1 * 1 := by gcongr
      _ ≤ 2e-11 := by linarith
  have h2 : |s * p| ≤ 6e-6 := by
    rw [abs_mul]
    calc |s| * |p| ≤ 6e-6 * 1 := by gcongr
      _ = 6e-6 := by norm_num
  constructor
  · calc |t * a * b + s * p| ≤ |t * a * b| + |s * p| := abs_add _ _
      _ ≤ 2e-11 + 6e-6 := add_le_add h1 h2
      _ ≤ 1e-5 := by norm_num
  · calc |t * a * b - s * p| ≤ |t * a * b| + |s * p| := abs_sub _ _
      _ ≤ 2e-11 + 6e-6 := add_le_add h1 h2
      _ ≤ 1e-5 := by norm_num

theorem small_diag (t a : ℝ) (ht0 : 0 ≤ t) (ht : t ≤ 2e-11) (ha : |a| ≤ 1) :
    |t * a * a + (1 - t) - 1| ≤ 1e-5 := by
  have h := abs_le.mp ha
  have h1 : a * a ≤ 1 := by nlinarith
  have h2 : 0 ≤ a * a := mul_self_nonneg a
  rw [abs_le]
  constructor
  · norm_num at ht ⊢
    nlinarith
  · norm_num at ht ⊢
    nlinarith

/-- C10: for every nonzero axis, each of the 16 entries of
`rotationMatrix(360, x, y, z)` is within `1e-5` of the corresponding entry of
`rotationMatrix(0, x, y, z)`, with the constant `3.14159/180` of the code. -/
theorem rotationMatrix_full_turn (x y z : ℝ) (m₁ m₂ : Fin 16 → ℝ)
    (haxis : ¬ (x = 0 ∧ y = 0 ∧ z = 0)) (n : Fin 16) :
    |rotationMatrix Real.cos Real.sin Real.sqrt 360 x y z m₁ n
      - rotationMatrix Real.cos Real.sin Real.sqrt 0 x y z m₂ n| ≤ 1e-5 := by
  have hu := unit_axis x y z haxis
  obtain ⟨ht0, ht1, hs⟩ := full_turn_trig
  rw [← at4_div_mod n]
  generalize (⟨n.val / 4, by omega⟩ : Fin 4) = i
  generalize (⟨n.val % 4, by omega⟩ : Fin 4) = j
  change |rowMajor (rotationMatrix Real.cos Real.sin Real.sqrt 360 x y z m₁) i j
      - rowMajor (rotationMatrix Real.cos Real.sin Real.sqrt 0 x y z m₂) i j| ≤ 1e-5
  rw [rotationMatrix_rowMajor, rotationMatrix_rowMajor]
  have h0 : (0 * 3.14159 / 180 : ℝ) = 0 := by norm_num
  rw [h0, Real.cos_zero, Real.sin_zero]
  generalize Real.sin (360 * 3.14159 / 180) = s at hs ⊢
  generalize ht : 1 - Real.cos (360 * 3.14159 / 180) = t at ht0 ht1 ⊢
  have hc : Real.cos (360 * 3.14159 / 180) = 1 - t := by linarith
  rw [hc]
  simp only at hu ⊢
  generalize x / Real.sqrt (x * x + y * y + z * z) = a at hu ⊢
  generalize y / Real.sqrt (x * x + y * y + z * z) = b at hu ⊢
  generalize z / Real.sqrt (x * x + y * y + z * z) = c at hu ⊢
  obtain ⟨ha, hb, hc⟩ := abs_unit_axis_le a b c hu
  fin_cases i <;> fin_cases j <;> simp [Matrix.vecHead, Matrix.vecTail] <;>
    first
    | exact small_diag t _ ht0 ht1 (by assumption)
    | exact (small_offdiag t s _ _ _ ht0 ht1 hs (by assumption) (by assumption)
        (by assumption)).1
    | exact (small_offdiag t s _ _ _ ht0 ht1 hs (by assumption) (by assumption)
        (by assumption)).2
    | norm_num

/-- C10 at the axis `(0.5, 1, 0)` used by `renderCube`, entry 1. -/
theorem rotationMatrix_full_turn_witness :
    ¬ ((0.5 : ℝ) = 0 ∧ (1 : ℝ) = 0 ∧ (0 : ℝ) = 0) ∧
    |rotationMatrix Real.cos Real.sin Real.sqrt 360 0.5 1 0 (fun _ => 0) 1
      - rotationMatrix Real.cos Real.sin Real.sqrt 0 0.5 1 0 (fun _ => 0) 1| ≤ (1e-5 : ℝ) :=
  ⟨by norm_num,
    rotationMatrix_full_turn 0.5 1 0 (fun _ => 0) (fun _ => 0) (by norm_num) 1⟩

/-! ## The combined transform of `renderCube` -/

section Transform

variable {K : Type} [LinearOrderedField K]

/-- Read in the column-major layout in which the matrices are uploaded, the
`transform` buffer of `renderCube` is `model * view * projection`. -/
theorem renderCube_transform_colMajor (cosf sinf sqrtf tanf : K → K) (angle : K)
    (stack : Frame K) :
    (fun F : Frame K =>
        colMajor F.transform = colMajor F.model * colMajor F.view * colMajor F.projection)
      (renderCube cosf sinf sqrtf tanf angle stack).2 := by
  simp only [renderCube, multiplyMatrices_colMajor]

end Transform

/-- C3 on the first frame (`rotation_angle = 0` on entry, locals zeroed): entry
15 of `transform` is 0, whereas the row 3, column 3 element of
`projection * view * model` in column-major reading is 3; so `transform` is
not that product. -/
theorem renderCube_transform_first_frame :
    (fun F : Frame ℝ =>
        F.transform 15 = 0 ∧
        (colMajor F.projection * colMajor F.view * colMajor F.model) 3 3 = 3 ∧
        colMajor F.transform ≠ colMajor F.projection * colMajor F.view * colMajor F.model)
      (renderCube Real.cos Real.sin Real.sqrt Real.tan 0
        ⟨fun _ => 0, fun _ => 0, fun _ => 0, fun _ => 0, fun _ => 0⟩).2 := by
  have key : ∀ F : Frame ℝ,
      rowMajor F.transform 3 3 = 0 →
      (rowMajor F.model * (rowMajor F.view * rowMajor F.projection)) 3 3 = 3 →
      F.transform 15 = 0 ∧
        (colMajor F.projection * colMajor F.view * colMajor F.model) 3 3 = 3 ∧
        colMajor F.transform ≠
          colMajor F.projection * colMajor F.view * colMajor F.model := by
    intro F h1 h2
    have h3 : (colMajor F.projection * colMajor F.view * colMajor F.model) 3 3 = 3 := by
      rw [colMajor_eq_transpose, colMajor_eq_transpose, colMajor_eq_transpose,
        ← Matrix.transpose_mul, ← Matrix.transpose_mul, Matrix.transpose_apply]
      exact h2
    refine ⟨h1, h3, fun h => ?_⟩
    have h4 : colMajor F.transform 3 3 = 0 := h1
    rw [h, h3] at h4
    norm_num at h4
  apply key
  · simp only [renderCube, multiplyMatrices_rowMajor, rotationMatrix_rowMajor,
      translationMatrix_rowMajor, perspectiveMatrix_rowMajor]
    simp [Matrix.mul_apply, Fin.sum_univ_four]
  · simp only [renderCube, rotationMatrix_rowMajor,
      translationMatrix_rowMajor, perspectiveMatrix_rowMajor]
    simp [Matrix.mul_apply, Fin.sum_univ_four]

/-! ## Geometry data -/

/-- C8: `cube_indices` has exactly 36 entries, the count given to the indexed
draw call, and every entry is below 8, the number of vertices of
`cube_vertices` (24 floats, 3 per vertex); so every vertex lookup is in range. -/
theorem cube_indices_in_bounds :
    cube_indices.length = 36 ∧ cube_indices.length = drawCount ∧
    cube_vertices.length = 24 ∧ vertexCount = 8 ∧
    (∀ i ∈ cube_indices, 0 ≤ i ∧ i < vertexCount) ∧
    (∀ i ∈ cube_indices, ∀ k < 3, 3 * i + k < cube_vertices.length) := by
  decide

/-- C9: the 12 consecutive triples of `cube_indices` each name three distinct
vertices lying in one face plane, and each of the six face planes carries
exactly 2 triangles whose vertices are exactly the 4 corners of that face. -/
theorem cube_indices_closed_surface :
    triangles.length = 12 ∧ triangles.flatten = cube_indices ∧
    (∀ t ∈ triangles, t.length = 3 ∧ t.Nodup ∧ (∀ v ∈ t, v < vertexCount) ∧
      ∃ p ∈ facePlanes, ∀ v ∈ t, vertexCoord v p.1 = p.2) ∧
    facePlanes.length = 6 ∧ facePlanes.Nodup ∧
    (∀ p ∈ facePlanes, (trianglesOn p).length = 2 ∧ (corners p).length = 4 ∧
      ∀ v, v ∈ (trianglesOn p).flatten ↔ v ∈ corners p) := by
  have h : ∀ p ∈ facePlanes, (trianglesOn p).length = 2 ∧ (corners p).length = 4 ∧
      (∀ v ∈ (trianglesOn p).flatten, v ∈ corners p) ∧
      (∀ v ∈ corners p, v ∈ (trianglesOn p).flatten) := by decide!
  refine ⟨by decide, by decide, by decide!, by decide, by decide!, ?_⟩
  intro p hp
  obtain ⟨h1, h2, h3, h4⟩ := h p hp
  exact ⟨h1, h2, fun v => ⟨h3 v, h4 v⟩⟩

/-! ## Rotation state -/

section Angle

variable {K : Type} [LinearOrderedField K]

theorem angleAfter_succ_eq (n : Nat) :
    (angleAfter (n + 1) : K) = ((n % 360 + 1 : Nat) : K) := by
  induction n with
  | zero => simp [angleAfter, stepAngle, rotation_angle₀]
  | succ n ih =>
    rw [angleAfter, ih]
    unfold stepAngle
    have hlt : n % 360 < 360 := Nat.mod_lt _ (by norm_num)
    by_cases h : n % 360 = 359
    · have h2 : (n + 1) % 360 = 0 := by omega
      rw [h, h2]
      norm_num
    · have h2 : (n + 1) % 360 = n % 360 + 1 := by omega
      have h3 : n % 360 + 1 + 1 ≤ 360 := by omega
      have h4 : ((n % 360 + 1 + 1 : Nat) : K) ≤ ((360 : Nat) : K) := Nat.cast_le.mpr h3
      rw [h2]
      push_cast at h4 ⊢
      simp only [gt_iff_lt, not_lt.mpr h4, if_false]

end Angle

/-- C1 (as the code behaves): after `n` frames the angle is `n mod 360`, except
that at a positive multiple of 360 frames it is 360 (the test is `> 360`). -/
theorem angleAfter_eq (n : Nat) :
    (angleAfter n : ℚ) = if 0 < n ∧ n % 360 = 0 then 360 else ((n % 360 : Nat) : ℚ) := by
  cases n with
  | zero => simp [angleAfter, rotation_angle₀]
  | succ m =>
    rw [angleAfter_succ_eq]
    have hlt : m % 360 < 360 := Nat.mod_lt _ (by norm_num)
    by_cases h : m % 360 = 359
    · have h2 : (m + 1) % 360 = 0 := by omega
      simp [h, h2]
    · have h2 : (m + 1) % 360 = m % 360 + 1 := by omega
      simp [h2]

/-- C1 fails as stated: after exactly 360 frames the angle is 360, not
`360 mod 360 = 0`, and it is not within `1e-3` of 0. -/
theorem angleAfter_360_ne_zero :
    (angleAfter 360 : ℚ) = 360 ∧ (angleAfter 360 : ℚ) ≠ ((360 % 360 : Nat) : ℚ) ∧
    ¬ |(angleAfter 360 : ℚ) - 0| ≤ 1 / 1000 := by
  have h : (angleAfter 360 : ℚ) = 360 := by
    rw [angleAfter_succ_eq 359]; norm_num
  rw [h]
  refine ⟨rfl, by norm_num, by norm_num⟩

/-- C2 (as the code behaves): after every number of frames the angle lies in
`[0, 360]`, and it is below 360 unless the frame count is a positive multiple
of 360. -/
theorem angleAfter_bounds (n : Nat) :
    0 ≤ (angleAfter n : ℚ) ∧ (angleAfter n : ℚ) ≤ 360 ∧
    ((angleAfter n : ℚ) < 360 ∨ (0 < n ∧ n % 360 = 0)) := by
  cases n with
  | zero => simp [angleAfter, rotation_angle₀]
  | succ m =>
    rw [angleAfter_succ_eq]
    have hlt : m % 360 < 360 := Nat.mod_lt _ (by norm_num)
    have h1 : ((m % 360 + 1 : Nat) : ℚ) ≤ ((360 : Nat) : ℚ) := Nat.cast_le.mpr (by omega)
    refine ⟨Nat.cast_nonneg _, by simpa using h1, ?_⟩
    by_cases h : m % 360 = 359
    · right; omega
    · left
      have h2 : ((m % 360 + 1 : Nat) : ℚ) < ((360 : Nat) : ℚ) := Nat.cast_lt.mpr (by omega)
      simpa using h2

/-- C2 fails as stated: after 360 frames the angle is 360, outside `[0, 360)`. -/
theorem angleAfter_360_not_lt :
    ¬ (0 ≤ (angleAfter 360 : ℚ) ∧ (angleAfter 360 : ℚ) < 360) := by
  have h : (angleAfter 360 : ℚ) = 360 := by
    rw [angleAfter_succ_eq 359]; norm_num
  rw [h]
  norm_num

end Cube
